import Mathlib

/-!
Verification of the core pipeline of a MongoDB slow-query log analyzer
(single Rust source file, `src/main.rs`).  The pipeline extracts balanced
brace-delimited JSON fragments from text fields, normalizes each parsed
fragment into a `QueryPattern`, aggregates patterns by display identity,
and derives per-field value distributions.

Modelling conventions:
- Rust `String` becomes `List Char`; Rust byte lengths are recovered via
  `Char.utf8Size`, so byte-index slicing (and its possible panic at a
  non-character-boundary) is modelled exactly.
- `serde_json::Value` becomes the inductive `Json` below.  `serde_json`
  numbers are modelled as integers (no claim exercises floats); the default
  `serde_json::Map` is a `BTreeMap`, i.e. object entries are sorted by key
  and unique, so concrete example documents below list keys in sorted order.
- Rust functions that can panic return `Except Unit`; `Except.error ()`
  is a panic.  Fallible-by-design results keep `Option` respectively an
  inner `Except` for the explicit error string.
- `HashMap` contents are modelled as association lists with unique keys
  (`assocInsert` overwrites in place, `assocExtend` models `extend`);
  `HashMap` iteration order, which Rust leaves unspecified and randomized,
  is treated abstractly where a result could depend on it.
-/

/-- View of `Except` as a sum, to transport decidable equality. -/
def exceptToSum : Except ε α → ε ⊕ α
  | .error e => .inl e
  | .ok a => .inr a

instance {ε α : Type} [DecidableEq ε] [DecidableEq α] : DecidableEq (Except ε α) := fun a b =>
  decidable_of_iff (exceptToSum a = exceptToSum b) (by cases a <;> cases b <;> simp [exceptToSum])

/-- Structured document value, mirroring `serde_json::Value` (numbers as
integers; object entries sorted and unique as in the default `BTreeMap`
backed `serde_json::Map`). -/
inductive Json where
  | null : Json
  | bool (b : Bool) : Json
  | num (n : Int) : Json
  | str (s : List Char) : Json
  | arr (elems : List Json) : Json
  | obj (entries : List (List Char × Json)) : Json

/-- Lexicographic strict order on strings-as-char-lists; agrees with the
byte-wise `Ord` on Rust `String` because UTF-8 preserves codepoint order. -/
def lcLt : List Char → List Char → Bool
  | [], [] => false
  | [], _ :: _ => true
  | _ :: _, [] => false
  | a :: as, b :: bs => if a < b then true else if a = b then lcLt as bs else false

/-- Concatenation of a list of strings with a separator, as in Rust
`Vec::join`. -/
def joinSep (sep : List Char) : List (List Char) → List Char
  | [] => []
  | [x] => x
  | x :: y :: rest => x ++ sep ++ joinSep sep (y :: rest)

/-- Test for `key.starts_with` of the reserved operator marker, a dollar. -/
def startsDollar : List Char → Bool
  | c :: _ => c = '$'
  | [] => false

/-- Field-name filter used by both projection functions in the source:
keys starting with the operator marker and the internal id key are skipped. -/
def keyIsEligible (k : List Char) : Bool :=
  !startsDollar k && k ≠ "_id".toList

/-- Value.get on an object, `serde_json::Value::get`: `None` on non-objects,
first (unique) matching key otherwise. -/
def jGet (j : Json) (k : List Char) : Option Json :=
  match j with
  | .obj kvs => (kvs.find? (fun kv => kv.1 = k)).map (fun kv => kv.2)
  | _ => none

/-- Value.as_str: `Some` exactly on string values. -/
def asStr : Json → Option (List Char)
  | .str s => some s
  | _ => none

/-- Value.as_i64: `Some` exactly on integer numbers within the i64 range. -/
def asI64 : Json → Option Int
  | .num n => if -(2 ^ 63 : Int) ≤ n ∧ n < 2 ^ 63 then some n else none
  | _ => none

/-- HashMap::insert on an association list: overwrite the value in place if
the key is present, append otherwise.  Keeps keys unique. -/
def assocInsert (k v : List Char) : List (List Char × List Char) → List (List Char × List Char)
  | [] => [(k, v)]
  | (k0, v0) :: rest => if k0 = k then (k, v) :: rest else (k0, v0) :: assocInsert k v rest

/-- HashMap::extend: insert every pair of the second map, in order. -/
def assocExtend (m news : List (List Char × List Char)) : List (List Char × List Char) :=
  news.foldl (fun acc kv => assocInsert kv.1 kv.2 acc) m

/-- Lookup in an association list (content view of a `HashMap`). -/
def assocLookup (m : List (List Char × List Char)) (k : List Char) : Option (List Char) :=
  (m.find? (fun kv => kv.1 = k)).map (fun kv => kv.2)

/-- Byte length of a string, Rust `str::len`. -/
def byteLen (s : List Char) : Nat := (s.map Char.utf8Size).sum

/-- Prefix of a string holding exactly `n` bytes, Rust `&s[..n]`: `none`
when `n` is not a character boundary of `s` (in Rust: a panic). -/
def takeBytes : Nat → List Char → Option (List Char)
  | 0, _ => some []
  | _ + 1, [] => none
  | n + 1, c :: cs =>
    if c.utf8Size ≤ n + 1 then (takeBytes (n + 1 - c.utf8Size) cs).map (fun p => c :: p)
    else none

/-- String sample stored for a string field value (`main.rs` lines 86-93):
kept verbatim up to 50 bytes, otherwise the first 47 bytes plus an ellipsis;
the byte slice panics when byte 47 is not a character boundary. -/
def truncVal (s : List Char) : Except Unit (List Char) :=
  if byteLen s ≤ 50 then .ok s
  else
    match takeBytes 47 s with
    | some p => .ok (p ++ "...".toList)
    | none => .error ()

mutual
/-- Compact JSON rendering, `serde_json::Value::to_string`, used for
non-string array elements (escaping of control characters below 0x20 is
elided: no modelled input contains them). -/
def renderJson : Json → List Char
  | .null => "null".toList
  | .bool b => if b then "true".toList else "false".toList
  | .num n => (toString n).toList
  | .str s => '"' :: renderEscaped s ++ ['"']
  | .arr xs => '[' :: renderArr xs ++ [']']
  | .obj kvs => '{' :: renderObj kvs ++ ['}']

/-- String-body rendering with JSON escapes for quote and backslash. -/
def renderEscaped : List Char → List Char
  | [] => []
  | c :: rest =>
    (if c = '"' then ['\\', '"'] else if c = '\\' then ['\\', '\\'] else [c]) ++ renderEscaped rest

/-- Array-body rendering, comma separated. -/
def renderArr : List Json → List Char
  | [] => []
  | [x] => renderJson x
  | x :: y :: rest => renderJson x ++ [','] ++ renderArr (y :: rest)

/-- Object-body rendering, comma separated key-value pairs. -/
def renderObj : List (List Char × Json) → List Char
  | [] => []
  | [(k, v)] => '"' :: renderEscaped k ++ ['"', ':'] ++ renderJson v
  | (k, v) :: e :: rest =>
    ('"' :: renderEscaped k ++ ['"', ':'] ++ renderJson v) ++ [','] ++ renderObj (e :: rest)
end

/-- Stable ascending insertion for the lexicographic sort of field names,
modelling the stable `Vec::sort`. -/
def insertLex (x : List Char) : List (List Char) → List (List Char)
  | [] => [x]
  | y :: ys => if lcLt x y then x :: y :: ys else y :: insertLex x ys

/-- Stable lexicographic sort of field names (`fields.sort()`). -/
def sortLex (l : List (List Char)) : List (List Char) :=
  l.foldl (fun acc x => insertLex x acc) []

/-- The function `extract_fields_from_object` (`main.rs` lines 46-62):
eligible top-level keys of an object, sorted; empty for non-objects. -/
def extract_fields_from_object (j : Json) : List (List Char) :=
  match j with
  | .obj kvs => sortLex ((kvs.map (fun kv => kv.1)).filter keyIsEligible)
  | _ => []

/-- Rendering of one array element (`main.rs` lines 102-106): strings are
taken verbatim, every other value through its JSON rendering. -/
def arrElemStr (v : Json) : List Char :=
  match v with
  | .str s => s
  | _ => renderJson v

/-- Dotted field path of a key under a prefix (`main.rs` lines 79-83). -/
def fieldName (pre k : List Char) : List Char :=
  if pre = [] then k else pre ++ '.' :: k

/-- Sample value stored for an array (`main.rs` lines 100-112): up to three
elements joined verbatim by commas in brackets, otherwise only the length. -/
def arrSample (elems : List Json) : List Char :=
  if elems.length ≤ 3 then '[' :: joinSep [','] (elems.map arrElemStr) ++ [']']
  else '[' :: (toString elems.length).toList ++ " items]".toList

mutual
/-- The function `extract_field_values_from_object_with_depth`
(`main.rs` lines 68-128): depth-bounded projection of an object to a flat
map from dotted field paths to stringified sample values.  `Except.error`
models the byte-slice panic of the string-truncation branch. -/
def extract_field_values_from_object_with_depth (j : Json) (pre : List Char)
    (current_depth max_depth : Nat) : Except Unit (List (List Char × List Char)) :=
  if max_depth ≤ current_depth then .ok []
  else
    match j with
    | .obj kvs => efvEntries kvs pre current_depth max_depth
    | _ => .ok []

/-- Entry loop of `extract_field_values_from_object_with_depth` (`main.rs`
lines 77-122): each eligible entry contributes one pair (scalar or array
case) or a recursively extracted map (nested object case), all merged left
to right into one map with last-write-wins insertion, exactly as the
sequential `HashMap` inserts of the source (the entry is processed before
the rest of the list, so the first panic in entry order surfaces).  Null
values and ineligible keys contribute nothing. -/
def efvEntries : List (List Char × Json) → List Char → Nat → Nat →
    Except Unit (List (List Char × List Char))
  | [], _, _, _ => .ok []
  | (_, .null) :: rest, pre, d, maxD => efvEntries rest pre d maxD
  | (k, .str s) :: rest, pre, d, maxD =>
    if keyIsEligible k then
      match truncVal s with
      | .error e => .error e
      | .ok sv =>
        match efvEntries rest pre d maxD with
        | .error e => .error e
        | .ok tail => .ok (assocExtend [(fieldName pre k, sv)] tail)
    else efvEntries rest pre d maxD
  | (k, .num n) :: rest, pre, d, maxD =>
    if keyIsEligible k then
      match efvEntries rest pre d maxD with
      | .error e => .error e
      | .ok tail => .ok (assocExtend [(fieldName pre k, (toString n).toList)] tail)
    else efvEntries rest pre d maxD
  | (k, .bool b) :: rest, pre, d, maxD =>
    if keyIsEligible k then
      match efvEntries rest pre d maxD with
      | .error e => .error e
      | .ok tail => .ok (assocExtend [(fieldName pre k, (if b then "true" else "false").toList)] tail)
    else efvEntries rest pre d maxD
  | (k, .arr elems) :: rest, pre, d, maxD =>
    if keyIsEligible k then
      match efvEntries rest pre d maxD with
      | .error e => .error e
      | .ok tail => .ok (assocExtend [(fieldName pre k, arrSample elems)] tail)
    else efvEntries rest pre d maxD
  | (k, .obj nested) :: rest, pre, d, maxD =>
    if keyIsEligible k then
      match extract_field_values_from_object_with_depth (.obj nested) (fieldName pre k)
          (d + 1) maxD with
      | .error e => .error e
      | .ok contrib =>
        match efvEntries rest pre d maxD with
        | .error e => .error e
        | .ok tail => .ok (assocExtend contrib tail)
    else efvEntries rest pre d maxD
end

/-- The wrapper `extract_field_values_from_object` (`main.rs` lines 64-66):
depth 0 with the fixed bound 3. -/
def extract_field_values_from_object (j : Json) (pre : List Char) :
    Except Unit (List (List Char × List Char)) :=
  extract_field_values_from_object_with_depth j pre 0 3

/-- The structure `QueryPattern` (`main.rs` lines 7-17); `field_values` is
the content view of the `HashMap`, with unique keys. -/
structure QueryPattern where
  collection : List Char
  operation : List Char
  filter_fields : List (List Char)
  sort_fields : List (List Char)
  index_used : List Char
  plan_summary : List Char
  duration_ms : Option Int
  field_values : List (List Char × List Char)
deriving DecidableEq

/-- Display implementation for `QueryPattern` (`main.rs` lines 19-44); its
rendering is the deduplication identity used by the aggregation map. -/
def displayPattern (p : QueryPattern) : List Char :=
  joinSep " | ".toList
    (["Collection: ".toList ++ p.collection,
      "Operation: ".toList ++ p.operation] ++
     (if p.filter_fields = [] then []
      else ["Filter fields: [".toList ++ joinSep ", ".toList p.filter_fields ++ [']']]) ++
     (if p.sort_fields = [] then []
      else ["Sort fields: [".toList ++ joinSep ", ".toList p.sort_fields ++ [']']]) ++
     (if p.plan_summary ≠ [] ∧ p.plan_summary ≠ "unknown".toList then
        ["Plan: ".toList ++ p.plan_summary]
      else []) ++
     (if p.index_used ≠ [] ∧ p.index_used ≠ "unknown".toList then
        ["Index: ".toList ++ p.index_used]
      else []))

/-- Collection name from a namespace string (`main.rs` lines 143-145):
the substring after the last dot when a dot exists, otherwise the
collection stays empty. -/
def afterLastDot (s : List Char) : List Char :=
  if '.' ∈ s then (s.reverse.takeWhile (fun c => c ≠ '.')).reverse else []

/-- Command block of `parse_query_pattern` (`main.rs` lines 159-182):
operation kind from the command sub-keys, filter fields and values, sort
fields.  Result components: operation, filter fields, sort fields, field
values. -/
def command_block (a : Json) :
    Except Unit (List Char × List (List Char) × List (List Char) × List (List Char × List Char)) :=
  match jGet a "command".toList with
  | none => .ok ([], [], [], [])
  | some cmd =>
    let operation :=
      if (jGet cmd "find".toList).isSome then "find".toList
      else if (jGet cmd "getMore".toList).isSome then "getMore".toList
      else if (jGet cmd "listDatabases".toList).isSome then "listDatabases".toList
      else "other".toList
    match jGet cmd "filter".toList with
    | none =>
      match jGet cmd "sort".toList with
      | none => .ok (operation, [], [], [])
      | some srt => .ok (operation, [], extract_fields_from_object srt, [])
    | some flt =>
      match extract_field_values_from_object flt [] with
      | .error e => .error e
      | .ok fvs =>
        let ff := extract_fields_from_object flt
        let fv := assocExtend [] fvs
        match jGet cmd "sort".toList with
        | none => .ok (operation, ff, [], fv)
        | some srt => .ok (operation, ff, extract_fields_from_object srt, fv)

/-- Originating-command block of `parse_query_pattern` (`main.rs` lines
184-196): for a `getMore` operation, filter and sort fields are re-derived
from `attr.originatingCommand` when the respective sub-keys are present,
and the originating filter values are merged into the already sampled
field values by `HashMap::extend`. -/
def getmore_block (a : Json) (operation : List Char) (ff sf : List (List Char))
    (fv : List (List Char × List Char)) :
    Except Unit (List (List Char) × List (List Char) × List (List Char × List Char)) :=
  if operation = "getMore".toList then
    match jGet a "originatingCommand".toList with
    | none => .ok (ff, sf, fv)
    | some oc =>
      match jGet oc "filter".toList with
      | none =>
        match jGet oc "sort".toList with
        | none => .ok (ff, sf, fv)
        | some srt => .ok (ff, extract_fields_from_object srt, fv)
      | some flt =>
        match extract_field_values_from_object flt [] with
        | .error e => .error e
        | .ok fvs =>
          let ff2 := extract_fields_from_object flt
          let fv2 := assocExtend fv fvs
          match jGet oc "sort".toList with
          | none => .ok (ff2, sf, fv2)
          | some srt => .ok (ff2, extract_fields_from_object srt, fv2)
  else .ok (ff, sf, fv)

/-- Tail of `parse_query_pattern` once the four mandatory lookups
succeeded (`main.rs` lines 133-211): scalar fields, command block,
originating-command block, and the final rejection of fragments with both
collection and operation empty. -/
def parse_pattern_rest (a nsV planV durV : Json) : Except Unit (Option QueryPattern) :=
  let collection :=
    match asStr nsV with
    | some ns => afterLastDot ns
    | none => []
  let plan_summary :=
    match asStr planV with
    | some plan => plan
    | none => "unknown".toList
  let duration_ms := asI64 durV
  match command_block a with
  | .error e => .error e
  | .ok (operation, ff, sf, fv) =>
    match getmore_block a operation ff sf fv with
    | .error e => .error e
    | .ok (ff2, sf2, fv2) =>
      if collection = [] ∧ operation = [] then .ok none
      else
        .ok (some
          { collection := collection
            operation := operation
            filter_fields := ff2
            sort_fields := sf2
            index_used := "unknown".toList
            plan_summary := plan_summary
            duration_ms := duration_ms
            field_values := fv2 })

/-- The function `parse_query_pattern` (`main.rs` lines 130-212) on an
already parsed document (the `serde_json::from_str` step is the external
library boundary: a text that fails to parse yields no document and the
fragment is skipped by the caller).  The chained `?` operators after
`get("attr")`, `get("ns")`, `get("planSummary")` and `get("durationMillis")`
mean each of those lookups returns `None` for the whole function when the
key is absent.  `Except.error ()` models a panic inside field-value
extraction. -/
def parse_query_pattern (parsed : Json) : Except Unit (Option QueryPattern) :=
  match jGet parsed "attr".toList with
  | none => .ok none
  | some a =>
    match jGet a "ns".toList with
    | none => .ok none
    | some nsV =>
      match jGet a "planSummary".toList with
      | none => .ok none
      | some planV =>
        match jGet a "durationMillis".toList with
        | none => .ok none
        | some durV => parse_pattern_rest a nsV planV durV

/-- Aggregation map entry: display identity key, representative pattern,
occurrence count. -/
abbrev AggEntry := List Char × QueryPattern × Nat

/-- Lookup of an aggregation entry by identity key. -/
def lookupAgg : List AggEntry → List Char → Option (QueryPattern × Nat)
  | [], _ => none
  | e :: rest, k => if e.1 = k then some e.2 else lookupAgg rest k

/-- Count increment of the entry with the given key (`*count += 1`); the
stored representative pattern is untouched. -/
def bumpAgg : List AggEntry → List Char → List AggEntry
  | [], _ => []
  | e :: rest, k => if e.1 = k then (e.1, e.2.1, e.2.2 + 1) :: rest else e :: bumpAgg rest k

/-- Fold step of the aggregation map (`main.rs` lines 246-253): an existing
identity only gets its count incremented, a fresh identity inserts the full
pattern with count 1. -/
def aggStep (m : List AggEntry) (p : QueryPattern) : List AggEntry :=
  let k := displayPattern p
  match lookupAgg m k with
  | some _ => bumpAgg m k
  | none => m ++ [(k, p, 1)]

/-- Aggregation of a sequence of normalized patterns (content of
`pattern_counts` after the loop; entries listed in first-insertion order). -/
def aggregate (ps : List QueryPattern) : List AggEntry :=
  ps.foldl aggStep []

/-- Main loop of `find_query_patterns_in_braces` (`main.rs` lines 222-263)
from the sequence of parse results of the extracted fragments on: `none`
is a fragment `serde_json::from_str` rejects, parse failures and
unrecognized fragments are skipped, recognized patterns are folded into
the aggregation map, and a panic aborts the run. -/
def runAggregateFrom : List AggEntry → List (Option Json) → Except Unit (List AggEntry)
  | m, [] => .ok m
  | m, none :: rest => runAggregateFrom m rest
  | m, some j :: rest =>
    match parse_query_pattern j with
    | .error e => .error e
    | .ok none => runAggregateFrom m rest
    | .ok (some p) => runAggregateFrom (aggStep m p) rest

/-- Stable descending insertion by count, modelling the stable
`sort_by(|a, b| b.1.cmp(&a.1))`. -/
def insertCountDesc {α : Type} (x : α × Nat) : List (α × Nat) → List (α × Nat)
  | [] => [x]
  | y :: ys => if y.2 < x.2 then x :: y :: ys else y :: insertCountDesc x ys

/-- Stable sort by descending count (`main.rs` line 273 and line 364 and
line 422 all use this shape). -/
def sortByCountDesc {α : Type} (l : List (α × Nat)) : List (α × Nat) :=
  l.foldl (fun acc x => insertCountDesc x acc) []

/-- Decidable check that counts are weakly descending. -/
def isSortedDesc {α : Type} : List (α × Nat) → Bool
  | [] => true
  | [_] => true
  | a :: b :: rest => decide (b.2 ≤ a.2) && isSortedDesc (b :: rest)

/-- Error string of the empty-result failure (`main.rs` line 266). -/
def noPatternsMsg : List Char :=
  "No query patterns found within curly braces".toList

/-- The function `find_query_patterns_in_braces` (`main.rs` lines 214-276)
from the fragment parse results on (file opening and CSV tokenization are
the out-of-scope source boundary).  The outer `Except Unit` is a panic,
the inner `Except` carries the explicit no-patterns error.  The order in
which `HashMap::into_values` enumerates the entries before the sort is
unspecified in Rust; here the first-insertion order stands in for it, and
`sorted_output` below is used to reason about arbitrary enumeration
orders. -/
def find_query_patterns_in_braces (frags : List (Option Json)) :
    Except Unit (Except (List Char) (List (QueryPattern × Nat))) :=
  match runAggregateFrom [] frags with
  | .error e => .error e
  | .ok m =>
    if m = [] then .ok (.error noPatternsMsg)
    else .ok (.ok (sortByCountDesc (m.map (fun e => e.2))))

/-- Final sorting stage applied to the values of the aggregation map in
whatever order `HashMap::into_values` yields them. -/
def sorted_output (vs : List (QueryPattern × Nat)) : List (QueryPattern × Nat) :=
  sortByCountDesc vs

/-- Brace scanner state step of `find_query_patterns_in_braces`
(`main.rs` lines 228-261), restricted to the fragment-extraction effect:
`depth` is the running brace counter (a Rust `i32`, decremented on every
closing brace, so it can go negative), `buf` holds the candidate fragment
opened at depth 0, and a fragment is emitted when the counter returns to
exactly 0. -/
def scanLoop : List Char → Int → Option (List Char) → List (List Char)
  | [], _, _ => []
  | c :: rest, depth, buf =>
    if c = '{' then
      if depth = 0 then scanLoop rest (depth + 1) (some ['{'])
      else scanLoop rest (depth + 1) (buf.map (fun b => b ++ ['{']))
    else if c = '}' then
      if depth - 1 = 0 then
        match buf with
        | some b => (b ++ ['}']) :: scanLoop rest (depth - 1) none
        | none => scanLoop rest (depth - 1) none
      else scanLoop rest (depth - 1) (buf.map (fun b => b ++ ['}']))
    else scanLoop rest depth (buf.map (fun b => b ++ [c]))

/-- Fragment extraction from one text field: all brace-balanced candidate
substrings, in order. -/
def extractFragments (cs : List Char) : List (List Char) :=
  scanLoop cs 0 none

/-- BTreeMap entry update: add `d` to the count at `k`, inserting the key
at its sorted position when fresh (`*entry(k).or_insert(0) += d`). -/
def btAdd (k : List Char) (d : Nat) : List (List Char × Nat) → List (List Char × Nat)
  | [] => [(k, d)]
  | (k0, c0) :: rest =>
    if k0 = k then (k0, c0 + d) :: rest
    else if lcLt k k0 then (k, d) :: (k0, c0) :: rest
    else (k0, c0) :: btAdd k d rest

/-- Nested BTreeMap update: apply `f` to the inner map at `k`, inserting an
empty inner map at the sorted position when fresh. -/
def btUpdate (k : List Char) (f : List (List Char × Nat) → List (List Char × Nat)) :
    List (List Char × List (List Char × Nat)) → List (List Char × List (List Char × Nat))
  | [] => [(k, f [])]
  | (k0, m0) :: rest =>
    if k0 = k then (k0, f m0) :: rest
    else if lcLt k k0 then (k, f []) :: (k0, m0) :: rest
    else (k0, m0) :: btUpdate k f rest

/-- The function `analyze_field_value_distributions` (`main.rs` lines
308-326): for each problematic pattern (plan COLLSCAN or count above 100),
each sampled field value adds the pattern count under the key
`collection:fieldPath`.  The accumulation is per-key addition, so the
unspecified `HashMap` iteration order over `field_values` (whose keys are
unique) cannot change the result. -/
def analyze_field_value_distributions (patterns : List (QueryPattern × Nat)) :
    List (List Char × List (List Char × Nat)) :=
  patterns.foldl
    (fun acc pc =>
      if pc.1.plan_summary = "COLLSCAN".toList ∨ 100 < pc.2 then
        pc.1.field_values.foldl
          (fun acc2 fv =>
            btUpdate (pc.1.collection ++ ':' :: fv.1) (btAdd fv.2 pc.2) acc2)
          acc
      else acc)
    []

/-- Total count over one value-distribution map (`main.rs` line 430). -/
def totalSum (vals : List (List Char × Nat)) : Nat :=
  (vals.map (fun v => v.2)).sum

/-- Count attributed to the top three most frequent values (`main.rs`
lines 421-431): values sorted by descending count, first three summed. -/
def top3Sum (vals : List (List Char × Nat)) : Nat :=
  (((sortByCountDesc vals).take 3).map (fun v => v.2)).sum

/-- Record (a) of the concrete aggregation scenario: namespace db.orders,
plan COLLSCAN, duration 120, a find command with filter on `status` equal
to the string `open` (object keys listed sorted, as `serde_json` yields
them). -/
def recA : Json :=
  .obj [("attr".toList, .obj
    [("command".toList, .obj
       [("filter".toList, .obj [("status".toList, .str "open".toList)]),
        ("find".toList, .str "orders".toList)]),
     ("durationMillis".toList, .num 120),
     ("ns".toList, .str "db.orders".toList),
     ("planSummary".toList, .str "COLLSCAN".toList)])]

/-- Record (b) of the concrete aggregation scenario: the same shape with
filter value `closed`. -/
def recB : Json :=
  .obj [("attr".toList, .obj
    [("command".toList, .obj
       [("filter".toList, .obj [("status".toList, .str "closed".toList)]),
        ("find".toList, .str "orders".toList)]),
     ("durationMillis".toList, .num 120),
     ("ns".toList, .str "db.orders".toList),
     ("planSummary".toList, .str "COLLSCAN".toList)])]

/-- Expected aggregated pattern of the concrete scenario: the stored
representative is the first occurrence, record (a), with its sampled
field value `open`. -/
def patOrders : QueryPattern :=
  { collection := "orders".toList
    operation := "find".toList
    filter_fields := ["status".toList]
    sort_fields := []
    index_used := "unknown".toList
    plan_summary := "COLLSCAN".toList
    duration_ms := some 120
    field_values := [("status".toList, "open".toList)] }

/-- Document with a top-level attr object and a find command but no `ns`
key: the claimed tolerance of a missing `ns` would have to accept it. -/
def docNoNs : Json :=
  .obj [("attr".toList, .obj
    [("command".toList, .obj [("find".toList, .str "orders".toList)])])]

/-- String of byte length 52 whose byte 47 is not a character boundary:
46 ASCII characters followed by three two-byte characters. -/
def panicStr : List Char := List.replicate 46 'a' ++ "ééé".toList

/-- Document whose filter holds `panicStr`: every mandatory lookup
succeeds, and field-value extraction reaches the truncating byte slice. -/
def docPanic : Json :=
  .obj [("attr".toList, .obj
    [("command".toList, .obj
       [("filter".toList, .obj [("f".toList, .str panicStr)]),
        ("find".toList, .str "c".toList)]),
     ("durationMillis".toList, .num 1),
     ("ns".toList, .str "db.c".toList),
     ("planSummary".toList, .str "P".toList)])]

/-- Template for the getMore-override scenario: a getMore command carrying
a filter of its own next to an originating command with another filter. -/
def getMoreDoc (cf ocf : Json) : Json :=
  .obj [("attr".toList, .obj
    [("command".toList, .obj
       [("filter".toList, cf),
        ("getMore".toList, .num 1)]),
     ("durationMillis".toList, .num 1),
     ("ns".toList, .str "db.c".toList),
     ("originatingCommand".toList, .obj [("filter".toList, ocf)]),
     ("planSummary".toList, .str "P".toList)])]

/-- Filter document nested five levels deep, with one scalar at each of
the first three levels and scalars beyond the depth bound below. -/
def deepFilter : Json :=
  .obj [("a".toList, .obj
          [("b".toList, .obj
             [("c".toList, .obj
                [("d".toList, .obj [("e".toList, .num 5)]),
                 ("s3".toList, .num 3)]),
              ("s2".toList, .num 2)]),
           ("s1".toList, .num 1)]),
        ("s0".toList, .num 0)]

/-- Minimal recognizable record on collection `a` (no command object, so
the operation stays empty while the collection does not). -/
def docCollA : Json :=
  .obj [("attr".toList, .obj
    [("durationMillis".toList, .num 1),
     ("ns".toList, .str "db.a".toList),
     ("planSummary".toList, .str "P".toList)])]

/-- Minimal recognizable record on collection `b`. -/
def docCollB : Json :=
  .obj [("attr".toList, .obj
    [("durationMillis".toList, .num 1),
     ("ns".toList, .str "db.b".toList),
     ("planSummary".toList, .str "P".toList)])]

/-- Pattern produced by `docCollA`. -/
def patCollA : QueryPattern :=
  { collection := "a".toList
    operation := []
    filter_fields := []
    sort_fields := []
    index_used := "unknown".toList
    plan_summary := "P".toList
    duration_ms := some 1
    field_values := [] }

/-- Pattern produced by `docCollB`. -/
def patCollB : QueryPattern :=
  { collection := "b".toList
    operation := []
    filter_fields := []
    sort_fields := []
    index_used := "unknown".toList
    plan_summary := "P".toList
    duration_ms := some 1
    field_values := [] }

/-! General lemmas about the aggregation fold and the stable sort. -/

theorem aggregate_append (ps : List QueryPattern) (p : QueryPattern) :
    aggregate (ps ++ [p]) = aggStep (aggregate ps) p := by
  simp [aggregate, List.foldl_append]

theorem lookupAgg_bumpAgg_self (m : List AggEntry) (k : List Char) (q : QueryPattern) (c : Nat)
    (h : lookupAgg m k = some (q, c)) : lookupAgg (bumpAgg m k) k = some (q, c + 1) := by
  induction m with
  | nil => simp [lookupAgg] at h
  | cons e rest ih =>
    by_cases he : e.1 = k
    · rw [lookupAgg, if_pos he] at h
      rw [bumpAgg, if_pos he, lookupAgg]
      simp only [if_pos he]
      simp only [Option.some.injEq] at h
      rw [h]
    · rw [lookupAgg, if_neg he] at h
      rw [bumpAgg, if_neg he, lookupAgg, if_neg he]
      exact ih h

theorem lookupAgg_bumpAgg_ne (m : List AggEntry) (k k2 : List Char) (hne : k2 ≠ k) :
    lookupAgg (bumpAgg m k) k2 = lookupAgg m k2 := by
  induction m with
  | nil => rfl
  | cons e rest ih =>
    by_cases he : e.1 = k
    · rw [bumpAgg, if_pos he, lookupAgg, lookupAgg]
      have hne2 : ¬ (e.1 = k2) := fun hc => hne (hc ▸ he ▸ rfl)
      simp only [if_neg (by simpa using hne2), if_neg (fun hc : e.1 = k2 => hne2 hc)]
    · rw [bumpAgg, if_neg he, lookupAgg, lookupAgg, ih]

theorem insertCountDesc_perm {α : Type} (x : α × Nat) (l : List (α × Nat)) :
    (insertCountDesc x l).Perm (x :: l) := by
  induction l with
  | nil => exact List.Perm.refl _
  | cons y ys ih =>
    rw [insertCountDesc]
    by_cases h : y.2 < x.2
    · rw [if_pos h]
    · rw [if_neg h]
      exact (ih.cons y).trans (List.Perm.swap x y ys)

theorem sortByCountDesc_perm_aux {α : Type} (l acc : List (α × Nat)) :
    ((l.foldl (fun a x => insertCountDesc x a) acc)).Perm (acc ++ l) := by
  induction l generalizing acc with
  | nil => simp
  | cons x xs ih =>
    simp only [List.foldl_cons]
    refine (ih (insertCountDesc x acc)).trans ?_
    refine (List.Perm.append_right xs (insertCountDesc_perm x acc)).trans ?_
    exact List.perm_middle.symm

theorem sortByCountDesc_perm {α : Type} (l : List (α × Nat)) :
    (sortByCountDesc l).Perm l := by
  simpa using sortByCountDesc_perm_aux l []

theorem isSortedDesc_insert {α : Type} (x : α × Nat) (l : List (α × Nat))
    (h : isSortedDesc l = true) : isSortedDesc (insertCountDesc x l) = true := by
  induction l with
  | nil => simp [insertCountDesc, isSortedDesc]
  | cons y ys ih =>
    rw [insertCountDesc]
    by_cases hxy : y.2 < x.2
    · rw [if_pos hxy]
      rw [isSortedDesc]
      simp [Nat.le_of_lt hxy, h]
    · rw [if_neg hxy]
      cases ys with
      | nil =>
        simp [insertCountDesc, isSortedDesc, Nat.le_of_not_lt hxy]
      | cons z zs =>
        rw [isSortedDesc] at h
        simp only [Bool.and_eq_true, decide_eq_true_eq] at h
        obtain ⟨hyz, hzs⟩ := h
        have hrec := ih hzs
        rw [insertCountDesc] at hrec ⊢
        by_cases hzx : z.2 < x.2
        · rw [if_pos hzx] at hrec ⊢
          rw [isSortedDesc]
          simp [Nat.le_of_not_lt hxy, hrec]
        · rw [if_neg hzx] at hrec ⊢
          rw [isSortedDesc]
          simp [hyz, hrec]

theorem isSortedDesc_sort_aux {α : Type} (l acc : List (α × Nat))
    (h : isSortedDesc acc = true) :
    isSortedDesc (l.foldl (fun a x => insertCountDesc x a) acc) = true := by
  induction l generalizing acc with
  | nil => exact h
  | cons x xs ih =>
    simp only [List.foldl_cons]
    exact ih _ (isSortedDesc_insert x acc h)

theorem isSortedDesc_sortByCountDesc {α : Type} (l : List (α × Nat)) :
    isSortedDesc (sortByCountDesc l) = true :=
  isSortedDesc_sort_aux l [] rfl

theorem sortByCountDesc_ne_nil {α : Type} (l : List (α × Nat)) (h : l ≠ []) :
    sortByCountDesc l ≠ [] := by
  intro hc
  have hlen := (sortByCountDesc_perm l).length_eq
  rw [hc] at hlen
  exact h (List.length_eq_zero.mp hlen.symm)

theorem aggStep_ne_nil (m : List AggEntry) (p : QueryPattern) : aggStep m p ≠ [] := by
  rw [aggStep]
  cases hl : lookupAgg m (displayPattern p) with
  | none => simp
  | some qc =>
    cases m with
    | nil => simp [lookupAgg] at hl
    | cons e rest =>
      rw [bumpAgg]
      by_cases he : e.1 = displayPattern p <;> simp [he]

theorem runAggregateFrom_ne_nil (frags : List (Option Json)) (acc m : List AggEntry)
    (h : runAggregateFrom acc frags = .ok m) (hacc : acc ≠ []) : m ≠ [] := by
  induction frags generalizing acc with
  | nil =>
    rw [runAggregateFrom] at h
    simp only [Except.ok.injEq] at h
    exact h ▸ hacc
  | cons of rest ih =>
    cases of with
    | none => rw [runAggregateFrom] at h; exact ih acc h hacc
    | some j =>
      rw [runAggregateFrom] at h
      cases hp : parse_query_pattern j with
      | error e => rw [hp] at h; exact absurd h (by simp)
      | ok po =>
        rw [hp] at h
        cases po with
        | none => exact ih acc h hacc
        | some p => exact ih (aggStep acc p) h (aggStep_ne_nil acc p)

theorem runAggregateFrom_nil_iff (frags : List (Option Json)) (acc m : List AggEntry)
    (h : runAggregateFrom acc frags = .ok m) :
    (m = [] ↔ (acc = [] ∧ ∀ j, some j ∈ frags → ∀ p, parse_query_pattern j ≠ .ok (some p))) := by
  induction frags generalizing acc with
  | nil =>
    rw [runAggregateFrom] at h
    simp only [Except.ok.injEq] at h
    subst h
    simp
  | cons of rest ih =>
    cases of with
    | none =>
      rw [runAggregateFrom] at h
      rw [ih acc h]
      constructor
      · rintro ⟨h1, h2⟩
        refine ⟨h1, fun j hj p => ?_⟩
        rcases List.mem_cons.mp hj with hj1 | hj2
        · exact absurd hj1 (by simp)
        · exact h2 j hj2 p
      · rintro ⟨h1, h2⟩
        exact ⟨h1, fun j hj p => h2 j (List.mem_cons_of_mem _ hj) p⟩
    | some j0 =>
      rw [runAggregateFrom] at h
      cases hp : parse_query_pattern j0 with
      | error e => rw [hp] at h; exact absurd h (by simp)
      | ok po =>
        rw [hp] at h
        cases po with
        | none =>
          rw [ih acc h]
          constructor
          · rintro ⟨h1, h2⟩
            refine ⟨h1, fun j hj p => ?_⟩
            rcases List.mem_cons.mp hj with hj1 | hj2
            · have hjj : j = j0 := by injection hj1
              subst hjj
              rw [hp]
              simp
            · exact h2 j hj2 p
          · rintro ⟨h1, h2⟩
            exact ⟨h1, fun j hj p => h2 j (List.mem_cons_of_mem _ hj) p⟩
        | some p0 =>
          have hm : m ≠ [] :=
            runAggregateFrom_ne_nil rest (aggStep acc p0) m h (aggStep_ne_nil acc p0)
          constructor
          · intro hc; exact absurd hc hm
          · rintro ⟨h1, h2⟩
            exact absurd hp (h2 j0 (List.mem_cons_self _ _) p0)

/-! Claim theorems. -/

/-- C1 (counterexample): the claim says `parse_query_pattern` returns
nothing only when `attr` is missing, the text does not parse, or both
collection and operation end up empty.  `docNoNs` has a top-level `attr`
and a find command (so the operation would be `find`, not empty), yet the
function returns nothing, because the `?` after `get("ns")` propagates the
absence of `ns` out of the whole function. -/
theorem C1_counterexample :
    (jGet docNoNs "attr".toList).isSome = true ∧ parse_query_pattern docNoNs = .ok none := by
  refine ⟨by rfl, by decide⟩

/-- C1 (amended): with `attr` present, the absence of any of `attr.ns`,
`attr.planSummary` or `attr.durationMillis` makes `parse_query_pattern`
return nothing; the spec-claimed tolerance only applies to present
sub-fields of the wrong type (non-string `ns` leaves the collection empty,
non-string `planSummary` keeps the default `unknown`, non-integer
`durationMillis` leaves the duration unset) and to the absence of
`command` (empty operation). -/
theorem C1_amended_absence_rejects (j a : Json) (h : jGet j ("attr".toList) = some a) :
    ((jGet a ("ns".toList) = none ∨ jGet a ("planSummary".toList) = none ∨
        jGet a ("durationMillis".toList) = none) → parse_query_pattern j = .ok none) ∧
    (∀ p, parse_query_pattern j = .ok (some p) →
      ((∀ v, jGet a ("ns".toList) = some v → asStr v = none) → p.collection = []) ∧
      ((∀ v, jGet a ("planSummary".toList) = some v → asStr v = none) →
        p.plan_summary = "unknown".toList) ∧
      ((∀ v, jGet a ("durationMillis".toList) = some v → asI64 v = none) →
        p.duration_ms = none) ∧
      (jGet a ("command".toList) = none → p.operation = [])) := by
  constructor
  · intro habs
    rcases habs with hns | hplan | hdur
    · simp only [parse_query_pattern, h, hns]
    · cases hns : jGet a ("ns".toList) with
      | none => simp only [parse_query_pattern, h, hns]
      | some nsV => simp only [parse_query_pattern, h, hns, hplan]
    · cases hns : jGet a ("ns".toList) with
      | none => simp only [parse_query_pattern, h, hns]
      | some nsV =>
        cases hplan : jGet a ("planSummary".toList) with
        | none => simp only [parse_query_pattern, h, hns, hplan]
        | some planV => simp only [parse_query_pattern, h, hns, hplan, hdur]
  · intro p hp
    cases hns : jGet a ("ns".toList) with
    | none => simp only [parse_query_pattern, h, hns] at hp; exact absurd hp (by simp)
    | some nsV =>
    cases hplan : jGet a ("planSummary".toList) with
    | none => simp only [parse_query_pattern, h, hns, hplan] at hp; exact absurd hp (by simp)
    | some planV =>
    cases hdur : jGet a ("durationMillis".toList) with
    | none =>
      simp only [parse_query_pattern, h, hns, hplan, hdur] at hp
      exact absurd hp (by simp)
    | some durV =>
    simp only [parse_query_pattern, h, hns, hplan, hdur] at hp
    rw [parse_pattern_rest] at hp
    cases hcb : command_block a with
    | error e => rw [hcb] at hp; exact absurd hp (by simp)
    | ok quad =>
      obtain ⟨op, ff, sf, fv⟩ := quad
      rw [hcb] at hp
      simp only at hp
      cases hgb : getmore_block a op ff sf fv with
      | error e => rw [hgb] at hp; exact absurd hp (by simp)
      | ok triple =>
        obtain ⟨ff2, sf2, fv2⟩ := triple
        rw [hgb] at hp
        simp only at hp
        split at hp
        · exact absurd hp (by simp)
        · simp only [Except.ok.injEq, Option.some.injEq] at hp
          subst hp
          refine ⟨?_, ?_, ?_, ?_⟩
          · intro hv
            have hx := hv nsV rfl
            simp only [hx]
          · intro hv
            have hx := hv planV rfl
            simp only [hx]
          · intro hv
            have hx := hv durV rfl
            simp only [hx]
          · intro hc
            simp only [command_block, hc, Except.ok.injEq, Prod.mk.injEq] at hcb
            exact hcb.1.symm

/-- C1 (witness): the amended theorem applied to `docNoNs`. -/
theorem C1_witness : parse_query_pattern docNoNs = .ok none :=
  (C1_amended_absence_rejects docNoNs
    (Json.obj [("command".toList, Json.obj [("find".toList, Json.str "orders".toList)])])
    rfl).1 (Or.inl rfl)

/-- C2 (counterexample): the claim expects the value-distribution map for
key `orders:status` to be the two-entry map with `open` at 3 and `closed`
at 2.  Aggregation collapses records (a) and (b) into one pattern whose
stored field values are those of the first occurrence, so the distribution
derived from the aggregated list sees `open` with the full count 5 and
`closed` not at all. -/
theorem C2_counterexample :
    find_query_patterns_in_braces [some recA, some recA, some recA, some recB, some recB] =
      .ok (.ok [(patOrders, 5)]) ∧
    analyze_field_value_distributions [(patOrders, 5)] =
      [("orders:status".toList, [("open".toList, 5)])] ∧
    [("open".toList, 5)] ≠ [("closed".toList, 2), ("open".toList, 3)] := by
  refine ⟨by decide, by decide, by decide⟩

/-- C2 (amended): three copies of record (a) and two of record (b) produce
exactly one pattern (collection `orders`, operation `find`, filter fields
`status`, plan COLLSCAN) with count 5, and the value-distribution map for
key `orders:status` holds the single entry `open` with count 5 — the
first-seen sample with the merged count — whose top-3 concentration is
100 percent of the total. -/
theorem C2_amended_scenario :
    find_query_patterns_in_braces [some recA, some recA, some recA, some recB, some recB] =
      .ok (.ok [(patOrders, 5)]) ∧
    patOrders.collection = "orders".toList ∧
    patOrders.operation = "find".toList ∧
    patOrders.filter_fields = ["status".toList] ∧
    patOrders.plan_summary = "COLLSCAN".toList ∧
    analyze_field_value_distributions [(patOrders, 5)] =
      [("orders:status".toList, [("open".toList, 5)])] ∧
    top3Sum [("open".toList, 5)] = totalSum [("open".toList, 5)] := by
  refine ⟨by decide, by decide, by decide, by decide, by decide, by decide, by decide⟩

/-- C3: folding one more pattern into the aggregation map increments only
the count of the entry with the same display identity, keeps the stored
representative pattern of the first occurrence (sampled field values
included) and every other entry untouched; a fresh identity is appended
with count 1. -/
theorem C3_merge_on_insert (ps : List QueryPattern) (p : QueryPattern) :
    (lookupAgg (aggregate ps) (displayPattern p) = none →
      aggregate (ps ++ [p]) = aggregate ps ++ [(displayPattern p, p, 1)]) ∧
    (∀ q c, lookupAgg (aggregate ps) (displayPattern p) = some (q, c) →
      lookupAgg (aggregate (ps ++ [p])) (displayPattern p) = some (q, c + 1) ∧
      ∀ k2, k2 ≠ displayPattern p →
        lookupAgg (aggregate (ps ++ [p])) k2 = lookupAgg (aggregate ps) k2) := by
  constructor
  · intro hnone
    rw [aggregate_append, aggStep]
    simp only [hnone]
  · intro q c hsome
    rw [aggregate_append, aggStep]
    simp only [hsome]
    exact ⟨lookupAgg_bumpAgg_self _ _ _ _ hsome,
           fun k2 hk2 => lookupAgg_bumpAgg_ne _ _ _ hk2⟩

/-- C3 (witness): two equal patterns aggregate to the first one with
count 2. -/
theorem C3_witness :
    lookupAgg (aggregate [patOrders, patOrders]) (displayPattern patOrders) =
      some (patOrders, 2) :=
  ((C3_merge_on_insert [patOrders] patOrders).2 patOrders 1 (by decide)).1

/-- C4 (counterexample): the claim asserts that re-running the pipeline
yields the sorted list in the same order with encounter-order ties.  The
final sort consumes the aggregation map through `HashMap::into_values`,
whose order is unspecified and randomized between runs; two enumeration
orders of the same two tied entries are both permutations of the map
values yet sort to different lists, so neither run-to-run stability nor
encounter-order tie-breaking is guaranteed. -/
theorem C4_counterexample :
    runAggregateFrom [] [some docCollA, some docCollB] =
      .ok [(displayPattern patCollA, patCollA, 1), (displayPattern patCollB, patCollB, 1)] ∧
    ([(patCollA, 1), (patCollB, 1)] : List (QueryPattern × Nat)).Perm
      ([(displayPattern patCollA, patCollA, 1), (displayPattern patCollB, patCollB, 1)].map
        (fun (e : AggEntry) => e.2)) ∧
    ([(patCollB, 1), (patCollA, 1)] : List (QueryPattern × Nat)).Perm
      ([(displayPattern patCollA, patCollA, 1), (displayPattern patCollB, patCollB, 1)].map
        (fun (e : AggEntry) => e.2)) ∧
    sorted_output [(patCollA, 1), (patCollB, 1)] ≠
      sorted_output [(patCollB, 1), (patCollA, 1)] := by
  refine ⟨by decide, ?_, ?_, by decide⟩
  · simp only [List.map_cons, List.map_nil]
    exact List.Perm.refl _
  · simp only [List.map_cons, List.map_nil]
    exact List.Perm.swap _ _ _

/-- C4 (amended): for any two enumeration orders of the values of the
aggregation map built from the same input, the two sorted outputs are
permutations of each other and both are sorted by weakly descending
count; the order among entries with equal counts is not specified. -/
theorem C4_amended_output_permutation (frags : List (Option Json)) (m : List AggEntry)
    (vs1 vs2 : List (QueryPattern × Nat))
    (_h : runAggregateFrom [] frags = .ok m)
    (h1 : vs1.Perm (m.map (fun e => e.2)))
    (h2 : vs2.Perm (m.map (fun e => e.2))) :
    (sorted_output vs1).Perm (sorted_output vs2) ∧
    isSortedDesc (sorted_output vs1) = true ∧
    isSortedDesc (sorted_output vs2) = true := by
  refine ⟨?_, isSortedDesc_sortByCountDesc vs1, isSortedDesc_sortByCountDesc vs2⟩
  exact ((sortByCountDesc_perm vs1).trans (h1.trans h2.symm)).trans
    (sortByCountDesc_perm vs2).symm

/-- C4 (witness): the amended theorem at the two-collection input with the
two opposite enumeration orders. -/
theorem C4_witness :
    (sorted_output [(patCollA, 1), (patCollB, 1)]).Perm
      (sorted_output [(patCollB, 1), (patCollA, 1)]) ∧
    isSortedDesc (sorted_output [(patCollA, 1), (patCollB, 1)]) = true ∧
    isSortedDesc (sorted_output [(patCollB, 1), (patCollA, 1)]) = true :=
  C4_amended_output_permutation [some docCollA, some docCollB]
    [(displayPattern patCollA, patCollA, 1), (displayPattern patCollB, patCollB, 1)]
    [(patCollA, 1), (patCollB, 1)] [(patCollB, 1), (patCollA, 1)]
    (by decide)
    (by simp only [List.map_cons, List.map_nil]; exact List.Perm.refl _)
    (by simp only [List.map_cons, List.map_nil]; exact List.Perm.swap _ _ _)

/-- C5 (code bug): `parse_query_pattern` does not always return a pattern
or nothing — it can panic.  `panicStr` has byte length 52, so it takes the
truncating branch, whose byte slice at index 47 falls inside a two-byte
character; in Rust this is an out-of-boundary string slice, which panics
instead of returning. -/
theorem C5_truncation_panics :
    byteLen panicStr = 52 ∧ parse_query_pattern docPanic = .error () := by
  refine ⟨by decide, by decide⟩

/-- C6 (counterexample): for a getMore record carrying both a command
filter on key `a` and an originating-command filter on key `b`, the claim
demands the field values be re-derived from the originating command alone
(only the `b` entry).  The code merges with `HashMap::extend`, so the
stale `a` sample from the command filter survives next to `b`. -/
theorem C6_counterexample :
    parse_query_pattern
        (getMoreDoc (Json.obj [("a".toList, .num 5)]) (Json.obj [("b".toList, .num 7)])) =
      .ok (some
        { collection := "c".toList
          operation := "getMore".toList
          filter_fields := ["b".toList]
          sort_fields := []
          index_used := "unknown".toList
          plan_summary := "P".toList
          duration_ms := some 1
          field_values := [("a".toList, "5".toList), ("b".toList, "7".toList)] }) ∧
    [("a".toList, "5".toList), ("b".toList, "7".toList)] ≠ [("b".toList, "7".toList)] := by
  refine ⟨by decide, by decide⟩

/-- C6 (amended): for a getMore record with an originating command, the
filter fields are re-derived from the originating filter (overwritten),
but the field values are merged by `extend`: originating values win per
colliding key while previously sampled keys persist. -/
theorem C6_amended_getmore_merge (cf ocf : Json) (mcv mov : List (List Char × List Char))
    (hcf : extract_field_values_from_object cf [] = .ok mcv)
    (hocf : extract_field_values_from_object ocf [] = .ok mov) :
    parse_query_pattern (getMoreDoc cf ocf) = .ok (some
      { collection := "c".toList
        operation := "getMore".toList
        filter_fields := extract_fields_from_object ocf
        sort_fields := []
        index_used := "unknown".toList
        plan_summary := "P".toList
        duration_ms := some 1
        field_values := assocExtend (assocExtend [] mcv) mov }) := by
  have hcb : command_block (Json.obj
      [("command".toList, .obj [("filter".toList, cf), ("getMore".toList, .num 1)]),
       ("durationMillis".toList, .num 1),
       ("ns".toList, .str "db.c".toList),
       ("originatingCommand".toList, .obj [("filter".toList, ocf)]),
       ("planSummary".toList, .str "P".toList)]) =
      .ok ("getMore".toList, extract_fields_from_object cf, [], assocExtend [] mcv) := by
    have hstep : command_block (Json.obj
        [("command".toList, .obj [("filter".toList, cf), ("getMore".toList, .num 1)]),
         ("durationMillis".toList, .num 1),
         ("ns".toList, .str "db.c".toList),
         ("originatingCommand".toList, .obj [("filter".toList, ocf)]),
         ("planSummary".toList, .str "P".toList)]) =
        match extract_field_values_from_object cf [] with
        | .error e => .error e
        | .ok fvs =>
          .ok ("getMore".toList, extract_fields_from_object cf, [], assocExtend [] fvs) := rfl
    rw [hstep, hcf]
  have hgb : getmore_block (Json.obj
      [("command".toList, .obj [("filter".toList, cf), ("getMore".toList, .num 1)]),
       ("durationMillis".toList, .num 1),
       ("ns".toList, .str "db.c".toList),
       ("originatingCommand".toList, .obj [("filter".toList, ocf)]),
       ("planSummary".toList, .str "P".toList)]) "getMore".toList
      (extract_fields_from_object cf) [] (assocExtend [] mcv) =
      .ok (extract_fields_from_object ocf, [], assocExtend (assocExtend [] mcv) mov) := by
    have hstep : getmore_block (Json.obj
        [("command".toList, .obj [("filter".toList, cf), ("getMore".toList, .num 1)]),
         ("durationMillis".toList, .num 1),
         ("ns".toList, .str "db.c".toList),
         ("originatingCommand".toList, .obj [("filter".toList, ocf)]),
         ("planSummary".toList, .str "P".toList)]) "getMore".toList
        (extract_fields_from_object cf) [] (assocExtend [] mcv) =
        match extract_field_values_from_object ocf [] with
        | .error e => .error e
        | .ok fvs =>
          .ok (extract_fields_from_object ocf, [], assocExtend (assocExtend [] mcv) fvs) := rfl
    rw [hstep, hocf]
  show parse_pattern_rest _ (.str "db.c".toList) (.str "P".toList) (.num 1) = _
  rw [parse_pattern_rest, hcb]
  simp only
  rw [hgb]
  simp only
  rw [if_neg (by decide)]
  rfl

/-- C6 (witness): the amended theorem at the two one-field filters. -/
theorem C6_witness :
    parse_query_pattern
        (getMoreDoc (Json.obj [("a".toList, .num 5)]) (Json.obj [("b".toList, .num 7)])) =
      .ok (some
        { collection := "c".toList
          operation := "getMore".toList
          filter_fields := extract_fields_from_object (Json.obj [("b".toList, .num 7)])
          sort_fields := []
          index_used := "unknown".toList
          plan_summary := "P".toList
          duration_ms := some 1
          field_values :=
            assocExtend (assocExtend [] [("a".toList, "5".toList)]) [("b".toList, "7".toList)] }) :=
  C6_amended_getmore_merge (Json.obj [("a".toList, .num 5)]) (Json.obj [("b".toList, .num 7)])
    [("a".toList, "5".toList)] [("b".toList, "7".toList)] (by decide) (by decide)

/-- C7: field-value extraction contributes nothing once the recursion
depth reaches the bound 3, and on the five-level `deepFilter` only the
paths reachable within three levels of object nesting are present — the
level-four and level-five scalars `a.b.c.s3` and `a.b.c.d.e` are absent. -/
theorem C7_depth_bound (j : Json) (pre : List Char) (d : Nat) (h : 3 ≤ d) :
    extract_field_values_from_object_with_depth j pre d 3 = .ok [] ∧
    extract_field_values_from_object deepFilter [] =
      .ok [("a.b.s2".toList, "2".toList), ("a.s1".toList, "1".toList),
           ("s0".toList, "0".toList)] := by
  constructor
  · cases j <;> (rw [extract_field_values_from_object_with_depth] <;> simp [h])
  · decide

/-- C7 (witness): the depth-bound theorem applied at depth 3. -/
theorem C7_witness :
    extract_field_values_from_object_with_depth deepFilter "x".toList 3 3 = .ok [] :=
  (C7_depth_bound deepFilter "x".toList 3 (by decide)).1

/-- C8: the pipeline reports the explicit no-patterns error exactly when
no fragment of the input yields a recognizable pattern (no fragments at
all, only unparseable ones, or only unrecognizable ones), and a
successful result list is never empty. -/
theorem C8_empty_result (frags : List (Option Json)) (m : List AggEntry)
    (h : runAggregateFrom [] frags = .ok m) :
    (find_query_patterns_in_braces frags = .ok (.error noPatternsMsg) ↔
      ∀ j, some j ∈ frags → ∀ p, parse_query_pattern j ≠ .ok (some p)) ∧
    (∀ l, find_query_patterns_in_braces frags = .ok (.ok l) → l ≠ []) := by
  have hiff := runAggregateFrom_nil_iff frags [] m h
  simp only [true_and] at hiff
  have hfind : find_query_patterns_in_braces frags =
      if m = [] then .ok (.error noPatternsMsg)
      else .ok (.ok (sortByCountDesc (m.map (fun e => e.2)))) := by
    rw [find_query_patterns_in_braces, h]
  rw [hfind]
  by_cases hm : m = []
  · rw [if_pos hm]
    constructor
    · constructor
      · intro _
        exact hiff.mp hm
      · intro _
        rfl
    · intro l hl
      exact absurd (Except.ok.inj hl) (by simp)
  · rw [if_neg hm]
    constructor
    · constructor
      · intro hc
        exact absurd (Except.ok.inj hc) (by simp)
      · intro hall
        exact absurd (hiff.mpr hall) hm
    · intro l hl
      have h3 : sortByCountDesc (m.map (fun e => e.2)) = l :=
        Except.ok.inj (Except.ok.inj hl)
      rw [← h3]
      apply sortByCountDesc_ne_nil
      simp only [ne_eq, List.map_eq_nil_iff]
      exact hm

/-- C8 (witness): a source with one empty field and one fragment without
`attr` surfaces the explicit error. -/
theorem C8_witness :
    find_query_patterns_in_braces [none, some (Json.obj [])] = .ok (.error noPatternsMsg) := by
  refine (C8_empty_result [none, some (Json.obj [])] [] rfl).1.mpr ?_
  intro j hj p
  rcases List.mem_cons.mp hj with h1 | h2
  · exact absurd h1 (by simp)
  · rcases List.mem_cons.mp h2 with h3 | h4
    · have hj0 : j = Json.obj [] := by injection h3
      subst hj0
      intro hc
      have hc2 : (Except.ok none : Except Unit (Option QueryPattern)) = .ok (some p) := hc
      simp at hc2
    · exact absurd h4 (by simp)

/-- C9: the nesting counter is decremented on every closing brace, even at
depth 0, so a stray leading closing brace drives it negative and no later
opening brace is seen at depth 0: the fields starting with a stray closer
yield no fragments, while without it every balanced fragment is emitted. -/
theorem C9_stray_close_suppresses :
    extractFragments ['}', '{', 'a', '}'] = [] ∧
    extractFragments ['{', 'a', '}'] = [['{', 'a', '}']] ∧
    extractFragments ['{', 'a', '}', '{', 'b', '}'] = [['{', 'a', '}'], ['{', 'b', '}']] ∧
    extractFragments ['}', '{', 'a', '}', '{', 'b', '}'] = [] := by
  refine ⟨by decide, by decide, by decide, by decide⟩

/-- C10: an array of at most three elements is sampled by joining the
element strings verbatim — no 50-byte cap is applied — so an array holding
one 60-character string is stored as a 62-character value, above the cap
enforced for directly sampled strings. -/
theorem C10_array_untruncated (k : List Char) (ss : List (List Char))
    (hk : keyIsEligible k = true) (hlen : ss.length ≤ 3) :
    extract_field_values_from_object (.obj [(k, .arr (ss.map Json.str))]) [] =
      .ok [(k, '[' :: joinSep [','] ss ++ [']'])] ∧
    extract_field_values_from_object
        (.obj [("tags".toList, .arr [.str (List.replicate 60 'x')])]) [] =
      .ok [("tags".toList, '[' :: List.replicate 60 'x' ++ [']'])] ∧
    50 < ('[' :: List.replicate 60 'x' ++ [']']).length := by
  refine ⟨?_, by decide, by decide⟩
  have hmap : (ss.map Json.str).map arrElemStr = ss := by
    rw [List.map_map]
    exact List.map_id ss
  unfold extract_field_values_from_object extract_field_values_from_object_with_depth
  simp [efvEntries, hk, arrSample, List.length_map, hlen, hmap, fieldName, assocExtend,
    assocInsert]

/-- C10 (witness): the theorem at the singleton array of a 60-character
string. -/
theorem C10_witness :
    extract_field_values_from_object
        (.obj [("tags".toList, .arr ([List.replicate 60 'x'].map Json.str))]) [] =
      .ok [("tags".toList, '[' :: joinSep [','] [List.replicate 60 'x'] ++ [']'])] :=
  (C10_array_untruncated "tags".toList [List.replicate 60 'x'] (by decide) (by decide)).1
